import Mathlib

/-!
Shallow embedding of `diode` (src/main.rs): a fan-out tee that reads one
input file block-by-block and broadcasts every block to one writer thread
per output target, then joins all threads and reports a `Status`.

Modelling conventions:
* File contents are `List Nat` (one `Nat` per byte).
* A `read` call on a regular file positioned at `pos`, asked for a buffer of
  `n` bytes, delivers the next `min n (length - pos)` bytes.  The
  bounded-mode loop is additionally parameterised by a schedule
  `sched : Nat → Nat` capping how many bytes the i-th physical `read`
  returns, so short reads are representable.
* Thread spawning and joining collapse to sequential composition: data
  flows one way (reader → bus → writers), every receiver of the `bus` crate
  observes the identical block sequence in order, and writes to distinct
  files are independent, so final file contents and joined thread results
  do not depend on the interleaving.  The bus backpressure protocol itself
  is modelled separately as a transition system (`BusStep`).
-/

/-- The `Error` enum of src/main.rs (`PathBuf` payloads become `String`). -/
inductive Error where
  | UnableToWriteToBuffer
  | UnableToSyncFiles
  | UnableToCreateFile (path : String)
  | UnableToOpenFile (path : String)
  | UnableToReadBytesFrom (path : String)
  | UnableToGetCurrPos (path : String)
  | UnableToGetByteLen (path : String)
  | FailedToJoinThreads
  deriving DecidableEq, Repr

/-- The `Status` struct of src/main.rs. -/
structure Status where
  bytes_copied : Nat
  num_of_files : Nat
  deriving DecidableEq, Repr

/-- The `convert_bytes` closure in `impl Display for Status`. -/
def convert_bytes (bytes : Nat) : Nat × String :=
  if bytes < 1024 then (bytes, "bytes")
  else if bytes < 1024 * 1024 then (bytes / 1024, "KB")
  else if bytes < 1024 * 1024 * 1024 then (bytes / (1024 * 1024), "MB")
  else (bytes / (1024 * 1024 * 1024), "GB")

/-- `impl Display for Status`: the formatted status line printed by `main`
on success. -/
def Status.display (st : Status) : String :=
  let p := convert_bytes st.bytes_copied
  let size := p.1
  let unit := p.2
  let n := st.num_of_files
  s!"{size} {unit} copied to {n} files."

/-- The `Diode` argument struct of src/main.rs.  `input` holds the input
file's contents rather than its path; `output` holds the target paths. -/
structure Diode where
  input : List Nat
  output : List String
  block_size : Nat
  block_buffer : Nat
  block_count : Option Nat

/-- Bounded-mode reader loop (the `Some(count)` arm of the reader closure in
`Diode::run`): iteration `i` allocates `tmp_buf = vec![0; B]`, one `read`
call fills its first `min (sched i) (min B avail)` bytes (a short read when
`sched i < min B avail`), the returned byte count is added to the `read`
accumulator, and the whole `B`-byte buffer is broadcast.  Returns the
broadcast blocks and the final accumulator. -/
def boundedLoop (B : Nat) (input : List Nat) (sched : Nat → Nat) :
    Nat → Nat → Nat → Nat → List (List Nat) × Nat
  | _, 0, _, acc => ([], acc)
  | i, k + 1, pos, acc =>
    let avail := input.length - pos
    let n := min (sched i) (min B avail)
    let block := (input.drop pos).take n ++ List.replicate (B - n) 0
    let rest := boundedLoop B input sched (i + 1) k (pos + n) (acc + n)
    (block :: rest.1, rest.2)

/-- Full-stream reader loop (the `None` arm of the reader closure in
`Diode::run`): while `curr_pos < full_len`, allocate a buffer of
`min B (full_len - curr_pos)` bytes, fill it with one `read` (on a regular
file the request never exceeds the remaining length, so the buffer is
filled completely), add the byte count to the accumulator and broadcast the
buffer.  `fuel` bounds the iterations of the model; `none` marks the loop
not terminating within `fuel` steps (in the code the loop never exits when
`B = 0` and input remains). -/
def fullLoop (B : Nat) (input : List Nat) :
    Nat → Nat → Nat → Option (List (List Nat) × Nat)
  | 0, _, _ => none
  | fuel + 1, pos, acc =>
    if pos < input.length then
      let diff := input.length - pos
      let size := if diff < B then diff else B
      let block := (input.drop pos).take size
      match fullLoop B input fuel (pos + size) (acc + size) with
      | none => none
      | some r => some (block :: r.1, r.2)
    else
      some ([], acc)

/-- The reader thread's body: dispatch on `block_count`; returns the list of
broadcast blocks together with the final value of the `read` accumulator
(`none` only if the full-stream loop exceeds `fuel`). -/
def readerRun (block_count : Option Nat) (B : Nat) (input : List Nat)
    (sched : Nat → Nat) (fuel : Nat) : Option (List (List Nat) × Nat) :=
  match block_count with
  | some count => some (boundedLoop B input sched 0 count 0 0)
  | none => fullLoop B input fuel 0 0

/-- A writer thread's body: `File::create` the target, then drain the
receiver, writing every received block in order, `sync_all` on channel
close, and return `Ok(0)`.  The result pairs the thread's
`Result<usize, Error>` with the final contents of its output file
(`[]` when creation failed and the loop was never entered). -/
def writerThread (createOk : Bool) (path : String)
    (blocks : List (List Nat)) : Except Error Nat × List Nat :=
  if createOk then (Except.ok 0, blocks.flatten)
  else (Except.error (Error.UnableToCreateFile path), [])

/-- The writer-join loop of `Diode::run`:
`for handle in writer_threads { handle.join()?? }` — writers joined in
registration order, short-circuiting on the first error. -/
def joinWriters : List (Except Error Nat) → Status → Except Error Status
  | [], st => Except.ok st
  | w :: rest, st =>
    match w with
    | Except.error e => Except.error e
    | Except.ok _ => joinWriters rest st

/-- The join sequence of `Diode::run`: the reader is joined first (`??`),
the `Status` struct is built from its byte count and the writer count, then
the writers are joined in registration order. -/
def joinAll (r : Except Error Nat) (ws : List (Except Error Nat)) :
    Except Error Status :=
  match r with
  | Except.error e => Except.error e
  | Except.ok bytes_read => joinWriters ws ⟨bytes_read, ws.length⟩

/-- The error carried by a thread result, if any. -/
def exceptError (w : Except Error Nat) : Option Error :=
  match w with
  | Except.error e => some e
  | Except.ok _ => none

/-- The errors of the thread results in join order (reader first, then the
writers in registration order). -/
def joinOrderErrors (r : Except Error Nat) (ws : List (Except Error Nat)) :
    List Error :=
  (r :: ws).filterMap exceptError

/-- Identifier for a spawned thread of the job. -/
inductive TaskId where
  | reader
  | writer (i : Nat)
  deriving DecidableEq, Repr

/-- Writer-join loop instrumented with the list of handles actually joined:
an early `return Err` (the `??` operator) leaves all later handles dropped,
not joined. -/
def joinWritersTrace : List (Except Error Nat) → Nat → Status →
    Except Error Status × List TaskId
  | [], _, st => (Except.ok st, [])
  | w :: rest, i, st =>
    match w with
    | Except.error e => (Except.error e, [TaskId.writer i])
    | Except.ok _ =>
      let r := joinWritersTrace rest (i + 1) st
      (r.1, TaskId.writer i :: r.2)

/-- The join sequence of `Diode::run` instrumented with the list of handles
actually joined before the function returns. -/
def joinAllTrace (r : Except Error Nat) (ws : List (Except Error Nat)) :
    Except Error Status × List TaskId :=
  match r with
  | Except.error e => (Except.error e, [TaskId.reader])
  | Except.ok bytes_read =>
    let rr := joinWritersTrace ws 0 ⟨bytes_read, ws.length⟩
    (rr.1, TaskId.reader :: rr.2)

/-- `Diode::run`: one writer per output path (create outcome decided by
`createOk` on the path), the reader produces the block stream, and all
threads are joined.  Returns `none` when the reader loop exceeds `fuel`;
otherwise the `Result<Status, Error>` of `run` paired with the final
contents of every successfully created output file, in registration
order. -/
def Diode.run (d : Diode) (createOk : String → Bool) (sched : Nat → Nat)
    (fuel : Nat) : Option (Except Error Status × List (List Nat)) :=
  match readerRun d.block_count d.block_size d.input sched fuel with
  | none => none
  | some br =>
    let writers := d.output.map (fun p => writerThread (createOk p) p br.1)
    let outs := (writers.filter (fun w => w.1.isOk)).map (fun w => w.2)
    some (joinAll (Except.ok br.2) (writers.map (fun w => w.1)), outs)

/-- State of the broadcast bus: how many blocks the reader has broadcast so
far, and, per registered receiver, how many blocks that receiver has
consumed. -/
structure BusState where
  produced : Nat
  consumed : List Nat
  deriving DecidableEq, Repr

/-- Modelled from the spec: the bounded broadcast channel is the external
`bus` crate, whose code is not among this repository's sources; §4.1 of the
spec states its contract.  `broadcast` is enabled only once every
receiver's pending queue (`produced - consumed`) is strictly below the
configured capacity `C` (otherwise the caller stays blocked, taking no
step); `recv i` is enabled when receiver `i` has a pending block. -/
inductive BusStep (C : Nat) : BusState → BusState → Prop where
  | broadcast (s : BusState) (h : ∀ c ∈ s.consumed, s.produced - c < C) :
      BusStep C s ⟨s.produced + 1, s.consumed⟩
  | recv (s : BusState) (i : Nat) (h : i < s.consumed.length)
      (hc : s.consumed.get ⟨i, h⟩ < s.produced) :
      BusStep C s ⟨s.produced, s.consumed.set i (s.consumed.get ⟨i, h⟩ + 1)⟩

/-- Initial bus state for `n` registered receivers. -/
def busInit (n : Nat) : BusState :=
  ⟨0, List.replicate n 0⟩

/-- Bus states reachable in a run with capacity `C` and `n` receivers. -/
def BusReachable (C n : Nat) (s : BusState) : Prop :=
  Relation.ReflTransGen (BusStep C) (busInit n) s

/-- Size component of the status line as the spec words it: the byte count
divided (integer division) by the divisor of the largest applicable unit
(1 below 1024, 1024 below 1024², 1024² below 1024³, 1024³ otherwise). -/
def specSize (b : Nat) : Nat :=
  if b < 1024 then b
  else if b < 1024 ^ 2 then b / 1024
  else if b < 1024 ^ 3 then b / 1024 ^ 2
  else b / 1024 ^ 3

/-- Unit component of the status line as the spec words it. -/
def specUnit (b : Nat) : String :=
  if b < 1024 then "bytes"
  else if b < 1024 ^ 2 then "KB"
  else if b < 1024 ^ 3 then "MB"
  else "GB"

/-! ### Helper lemmas about the reader loops -/

/-- Full-stream loop, fully characterised: with a positive block size and
enough fuel it terminates, returns the accumulated byte count
`acc + (remaining length)`, the concatenation of the broadcast blocks is
exactly the unread suffix of the input, and the block lengths are
`remaining / B` full blocks followed by one block of `remaining % B` bytes
when the remainder is nonzero. -/
theorem fullLoop_spec (B : Nat) (input : List Nat) (hB : 0 < B) :
    ∀ fuel pos acc, input.length - pos < fuel →
      ∃ blocks,
        fullLoop B input fuel pos acc = some (blocks, acc + (input.length - pos)) ∧
        blocks.flatten = input.drop pos ∧
        blocks.map List.length =
          List.replicate ((input.length - pos) / B) B ++
            (if (input.length - pos) % B = 0 then []
             else [(input.length - pos) % B]) := by
  intro fuel
  induction fuel with
  | zero => intro pos acc h; omega
  | succ fuel ih =>
    intro pos acc h
    by_cases hpos : pos < input.length
    · have hdiff : 0 < input.length - pos := by omega
      have hsz : (if input.length - pos < B then input.length - pos else B) =
          min (input.length - pos) B := by
        split <;> omega
      have h1 : 1 ≤ min (input.length - pos) B := by omega
      have hle : min (input.length - pos) B ≤ input.length - pos := by omega
      obtain ⟨blocks, heq, hflat, hlens⟩ :=
        ih (pos + min (input.length - pos) B) (acc + min (input.length - pos) B)
          (by omega)
      refine ⟨(input.drop pos).take (min (input.length - pos) B) :: blocks, ?_, ?_, ?_⟩
      · simp only [fullLoop, if_pos hpos, hsz, heq]
        congr 2
        omega
      · simp only [List.flatten_cons, hflat]
        rw [← List.drop_drop]
        exact List.take_append_drop _ _
      · simp only [List.map_cons, hlens]
        have hlen : ((input.drop pos).take (min (input.length - pos) B)).length =
            min (input.length - pos) B := by
          rw [List.length_take, List.length_drop]
          omega
        rw [hlen]
        rcases Nat.lt_or_ge (input.length - pos) B with hlt | hge
        · have hm : min (input.length - pos) B = input.length - pos := by omega
          have h0 : input.length - (pos + (input.length - pos)) = 0 := by omega
          have hne : input.length - pos ≠ 0 := by omega
          rw [hm, h0, Nat.div_eq_of_lt hlt, Nat.mod_eq_of_lt hlt]
          simp [hne]
        · have hm : min (input.length - pos) B = B := by omega
          have hrest : input.length - (pos + B) = (input.length - pos) - B := by omega
          have hdv : (input.length - pos) / B = ((input.length - pos) - B) / B + 1 := by
            rw [Nat.div_eq, if_pos ⟨hB, hge⟩]
          have hmod : (input.length - pos) % B = ((input.length - pos) - B) % B :=
            Nat.mod_eq_sub_mod hge
          rw [hm, hrest, hdv, hmod]
          simp [List.replicate_succ]
    · have h0 : input.length - pos = 0 := by omega
      refine ⟨[], ?_, ?_, ?_⟩
      · simp only [fullLoop, if_neg hpos, h0, Nat.add_zero]
      · simp [List.drop_eq_nil_of_le (by omega : input.length ≤ pos)]
      · simp [h0]

/-- The bounded-mode loop broadcasts one block per iteration: `k` iterations
produce exactly `k` blocks, whatever the physical reads return. -/
theorem boundedLoop_length (B : Nat) (input : List Nat) (sched : Nat → Nat) :
    ∀ k i pos acc, (boundedLoop B input sched i k pos acc).1.length = k := by
  intro k
  induction k with
  | zero => intro i pos acc; rfl
  | succ k ih =>
    intro i pos acc
    simp only [boundedLoop, List.length_cons, ih]

/-- Every block broadcast by the bounded-mode loop has length exactly `B`:
some read bytes from the input followed by the zeroes of the freshly
allocated buffer. -/
theorem boundedLoop_blocks (B : Nat) (input : List Nat) (sched : Nat → Nat) :
    ∀ k i pos acc, ∀ b ∈ (boundedLoop B input sched i k pos acc).1,
      b.length = B ∧
      ∃ p m, m ≤ min B (input.length - p) ∧
        b = (input.drop p).take m ++ List.replicate (B - m) 0 := by
  intro k
  induction k with
  | zero => intro i pos acc b hb; simp [boundedLoop] at hb
  | succ k ih =>
    intro i pos acc b hb
    simp only [boundedLoop, List.mem_cons] at hb
    rcases hb with hb | hb
    · subst hb
      constructor
      · rw [List.length_append, List.length_take, List.length_drop,
          List.length_replicate]
        omega
      · exact ⟨pos, min (sched i) (min B (input.length - pos)), by omega, rfl⟩
    · exact ih (i + 1) _ _ b hb

/-- Bounded-mode accumulator under exact reads (every physical read delivers
the full requested amount up to end of input): `k` reads of size `B` from
position `pos` read `min (k * B) remaining` bytes in total. -/
theorem boundedLoop_total_exact (B : Nat) (input : List Nat) :
    ∀ k i pos acc, (boundedLoop B input (fun _ => B) i k pos acc).2 =
      acc + min (k * B) (input.length - pos) := by
  intro k
  induction k with
  | zero => intro i pos acc; simp [boundedLoop]
  | succ k ih =>
    intro i pos acc
    simp only [boundedLoop, ih]
    have hmul : (k + 1) * B = k * B + B := by ring
    rw [hmul]
    omega

/-! ### Helper lemmas about the join sequence -/

/-- The writer-join loop returns the first writer error, or the `Status` it
was given when no writer failed. -/
theorem joinWriters_firstError :
    ∀ ws st, joinWriters ws st =
      (match (ws.filterMap exceptError).head? with
       | some e => Except.error e
       | none => Except.ok st) := by
  intro ws
  induction ws with
  | nil => intro st; rfl
  | cons w rest ih =>
    intro st
    cases w with
    | error e => simp [joinWriters, List.filterMap_cons, exceptError]
    | ok n => simp [joinWriters, List.filterMap_cons, exceptError, ih]

/-- If the writer-join loop succeeds, it returns exactly the `Status` it was
given. -/
theorem joinWriters_ok_eq :
    ∀ ws st st', joinWriters ws st = Except.ok st' → st' = st := by
  intro ws
  induction ws with
  | nil =>
    intro st st' h
    cases h
    rfl
  | cons w rest ih =>
    intro st st' h
    cases w with
    | error e => simp [joinWriters] at h
    | ok n => exact ih st st' h

/-- Joining a writer list whose prefix is all-successful and whose next
element is an error short-circuits at that error. -/
theorem joinWriters_first_error_at (e : Error) :
    ∀ oks rest st, (∀ w ∈ oks, ∃ m, w = Except.ok m) →
      joinWriters (oks ++ Except.error e :: rest) st = Except.error e := by
  intro oks
  induction oks with
  | nil => intro rest st _; rfl
  | cons w oks ih =>
    intro rest st hok
    obtain ⟨m, hm⟩ := hok w (List.mem_cons_self w oks)
    subst hm
    exact ih rest st (fun w hw => hok w (List.mem_cons_of_mem _ hw))

/-- The instrumented writer-join loop computes the same result as the
plain one. -/
theorem joinWritersTrace_fst :
    ∀ ws i st, (joinWritersTrace ws i st).1 = joinWriters ws st := by
  intro ws
  induction ws with
  | nil => intro i st; rfl
  | cons w rest ih =>
    intro i st
    cases w with
    | error e => rfl
    | ok n => simp only [joinWritersTrace, joinWriters, ih]

/-- When the instrumented writer-join loop succeeds, every writer handle was
joined, in registration order. -/
theorem joinWritersTrace_ok_trace :
    ∀ ws i st st', (joinWritersTrace ws i st).1 = Except.ok st' →
      (joinWritersTrace ws i st).2 = (List.range' i ws.length).map TaskId.writer := by
  intro ws
  induction ws with
  | nil => intro i st st' _; rfl
  | cons w rest ih =>
    intro i st st' h
    cases w with
    | error e => simp [joinWritersTrace] at h
    | ok n =>
      simp only [joinWritersTrace] at h ⊢
      rw [List.length_cons, List.range'_succ, List.map_cons]
      exact congrArg _ (ih (i + 1) st st' h)

/-! ### Claim theorems -/

/-- C2: in full-stream mode (`block_count` absent) the reader repeatedly
reads `min(B, remaining)` bytes into a block sized exactly to that amount
until remaining reaches zero; if `input_length mod B ≠ 0`, exactly one
broadcast block has length `input_length mod B`, it is the last block
produced, and no block is padded past the true end of input (the blocks
concatenate to exactly the input). -/
theorem final_block_sizing (B fuel : Nat) (input : List Nat) (sched : Nat → Nat)
    (hB : 0 < B) (hfuel : input.length < fuel) (hmod : input.length % B ≠ 0) :
    ∃ blocks total,
      readerRun none B input sched fuel = some (blocks, total) ∧
      (blocks.map List.length).count (input.length % B) = 1 ∧
      (blocks.map List.length).getLast? = some (input.length % B) ∧
      blocks.flatten = input := by
  obtain ⟨blocks, heq, hflat, hlens⟩ :=
    fullLoop_spec B input hB fuel 0 0 (by omega)
  simp only [Nat.sub_zero, Nat.zero_add, List.drop_zero] at heq hflat hlens
  rw [if_neg hmod] at hlens
  have hne : input.length % B ≠ B := by
    have := Nat.mod_lt input.length hB
    omega
  refine ⟨blocks, input.length, heq, ?_, ?_, hflat⟩
  · rw [hlens]
    simp [List.count_append, List.count_replicate, hne, Ne.symm hne]
  · rw [hlens]
    exact List.getLast?_concat _

/-- C3: the `bytes_copied` field of a returned `Ok(Status)` is exactly the
reader thread's accumulated read count; in full-stream mode that count
equals the input length, and in bounded mode under exact reads it equals
`min (K * B) (input length)`. -/
theorem count_accuracy :
    (∀ r ws st, joinAll r ws = Except.ok st → r = Except.ok st.bytes_copied) ∧
    (∀ B input sched fuel blocks total, 0 < B → input.length < fuel →
        readerRun none B input sched fuel = some (blocks, total) →
        total = input.length) ∧
    (∀ K B fuel input blocks total,
        readerRun (some K) B input (fun _ => B) fuel = some (blocks, total) →
        total = min (K * B) input.length) := by
  refine ⟨?_, ?_, ?_⟩
  · intro r ws st h
    cases r with
    | error e => simp [joinAll] at h
    | ok n =>
      simp only [joinAll] at h
      rw [joinWriters_ok_eq ws _ st h]
  · intro B input sched fuel blocks total hB hfuel h
    obtain ⟨blocks', heq, _, _⟩ := fullLoop_spec B input hB fuel 0 0 (by omega)
    simp only [readerRun] at h
    rw [heq] at h
    have := (Option.some.injEq _ _).mp h
    have h2 : total = 0 + (input.length - 0) := (Prod.mk.injEq _ _ _ _).mp this.symm |>.2
    omega
  · intro K B fuel input blocks total h
    simp only [readerRun] at h
    have h2 : total = (boundedLoop B input (fun _ => B) 0 K 0 0).2 := by
      have := (Option.some.injEq _ _).mp h
      exact ((Prod.mk.injEq _ _ _ _).mp this.symm).2
    rw [h2, boundedLoop_total_exact]
    omega

/-- C4: in bounded mode (`block_count = Some K`) the reader performs exactly
`K` reads of size `B` and broadcasts exactly `K` blocks, one per read, for
every possible short-read schedule. -/
theorem bounded_mode_broadcast_count :
    ∀ K B fuel input sched, ∃ blocks total,
      readerRun (some K) B input sched fuel = some (blocks, total) ∧
      blocks.length = K := by
  intro K B fuel input sched
  exact ⟨_, _, rfl, boundedLoop_length B input sched K 0 0 0⟩

/-- C10: in bounded mode every broadcast block has length exactly `B`
regardless of how many bytes the physical read returned: it consists of the
bytes the read delivered followed by the zeroes of the freshly allocated
buffer.  Concretely, a read capped at 2 bytes with `B = 4` broadcasts
`[7, 8, 0, 0]`, a zero-padded block. -/
theorem bounded_mode_zero_padding :
    (∀ K B fuel input sched blocks total,
        readerRun (some K) B input sched fuel = some (blocks, total) →
        ∀ b ∈ blocks, b.length = B ∧
          ∃ p m, m ≤ min B (input.length - p) ∧
            b = (input.drop p).take m ++ List.replicate (B - m) 0) ∧
    readerRun (some 1) 4 [7, 8, 9, 10] (fun _ => 2) 0 =
      some ([[7, 8, 0, 0]], 2) := by
  constructor
  · intro K B fuel input sched blocks total h b hb
    simp only [readerRun] at h
    have hbl : blocks = (boundedLoop B input sched 0 K 0 0).1 := by
      have := (Option.some.injEq _ _).mp h
      exact ((Prod.mk.injEq _ _ _ _).mp this.symm).1
    rw [hbl] at hb
    exact boundedLoop_blocks B input sched K 0 0 0 b hb
  · rfl

/-- C5: `Diode::run` joins the reader first, then every writer in
registration order, short-circuiting on the first error; the returned value
is the first error in that join order (later errors are discarded), and
when no error occurs it is `Ok` of the status built from the reader's byte
count and the writer count. -/
theorem first_error_join_order :
    ∀ r ws, joinAll r ws =
      (match (joinOrderErrors r ws).head? with
       | some e => Except.error e
       | none => Except.ok ⟨r.toOption.getD 0, ws.length⟩) := by
  intro r ws
  cases r with
  | error e => simp [joinAll, joinOrderErrors, List.filterMap_cons, exceptError]
  | ok n =>
    simp only [joinAll, joinOrderErrors, List.filterMap_cons, exceptError,
      Except.toOption, Option.getD_some]
    exact joinWriters_firstError ws _

/-- C8: on success the program prints one line
`<size> <unit> copied to <n> files.`, where the size is `bytes_copied`
integer-divided by the divisor of the largest applicable unit among bytes
(below 1024), KB (below 1024²), MB (below 1024³) and GB (otherwise), and
`<n>` is the number of output targets; in particular 150000 bytes and two
targets print `146 KB copied to 2 files.`. -/
theorem status_formatting :
    (∀ b n, Status.display ⟨b, n⟩ =
        toString (specSize b) ++ " " ++ specUnit b ++ " copied to " ++
          toString n ++ " files.") ∧
    Status.display ⟨150000, 2⟩ = "146 KB copied to 2 files." := by
  constructor
  · intro b n
    simp only [Status.display, convert_bytes, specSize, specUnit,
      show (1024 : Nat) ^ 2 = 1024 * 1024 from by norm_num,
      show (1024 : Nat) ^ 3 = 1024 * 1024 * 1024 from by norm_num]
    split_ifs <;> rfl
  · rfl

/-- C9: with configured per-receiver capacity `C`, in every reachable state
of a run the reader is never more than `C` blocks ahead of any receiver:
`broadcast` blocks the reader until every receiver's pending queue has
room. -/
theorem backpressure_bound (C n : Nat) (s : BusState)
    (h : BusReachable C n s) : ∀ c ∈ s.consumed, s.produced - c ≤ C := by
  induction h with
  | refl =>
    intro c hc
    simp only [busInit] at hc ⊢
    rw [List.eq_of_mem_replicate hc]
    omega
  | @tail t u hsteps hstep ih =>
    cases hstep with
    | broadcast hb =>
      intro c hc
      dsimp only at hc ⊢
      have := hb c hc
      omega
    | recv i hlt hcons =>
      intro c hc
      dsimp only at hc ⊢
      rcases List.mem_or_eq_of_mem_set hc with hmem | heq
      · exact ih c hmem
      · have := ih (t.consumed.get ⟨i, hlt⟩) (List.get_mem t.consumed i hlt)
        omega

/-- A writer list that contains only successes joins to the given status. -/
theorem joinWriters_all_ok :
    ∀ ws st, (∀ w ∈ ws, ∃ m, w = Except.ok m) →
      joinWriters ws st = Except.ok st := by
  intro ws
  induction ws with
  | nil => intro st _; rfl
  | cons w rest ih =>
    intro st h
    obtain ⟨m, hm⟩ := h w (List.mem_cons_self w rest)
    subst hm
    exact ih st (fun w hw => h w (List.mem_cons_of_mem _ hw))

/-- When every output path can be created, every writer thread returns
`Ok(0)` and every output file ends up holding the concatenation of the
broadcast blocks. -/
theorem writers_pipeline_ok (blocks : List (List Nat)) :
    ∀ (out : List String) (createOk : String → Bool),
      (∀ p ∈ out, createOk p = true) →
      ((out.map (fun p => writerThread (createOk p) p blocks)).map
          (fun w => w.1) = List.replicate out.length (Except.ok 0)) ∧
      (((out.map (fun p => writerThread (createOk p) p blocks)).filter
          (fun w => w.1.isOk)).map (fun w => w.2) =
        List.replicate out.length blocks.flatten) := by
  intro out
  induction out with
  | nil => intro createOk _; exact ⟨rfl, rfl⟩
  | cons p rest ih =>
    intro createOk h
    have hp : createOk p = true := h p (List.mem_cons_self p rest)
    have hrest := ih createOk (fun q hq => h q (List.mem_cons_of_mem _ hq))
    have hw : writerThread (createOk p) p blocks = (Except.ok 0, blocks.flatten) := by
      simp [writerThread, hp]
    constructor
    · simp only [List.map_cons, hw, List.length_cons, List.replicate_succ, hrest.1]
    · simp only [List.map_cons, hw, List.filter_cons, List.length_cons,
        List.replicate_succ]
      rw [if_pos (by rfl)]
      simp only [List.map_cons, hrest.2]

/-- C1 (amended): in full-stream mode (`block_count` absent), for every
input and every number of output targets, a successful run leaves every
output target byte-identical to the input.  (As stated over all modes the
claim is false: see the bounded-mode counterexample.) -/
theorem fidelity_full_stream (d : Diode) (createOk : String → Bool)
    (sched : Nat → Nat) (fuel : Nat)
    (hmode : d.block_count = none) (hB : 0 < d.block_size)
    (hfuel : d.input.length < fuel)
    (hcreate : ∀ p ∈ d.output, createOk p = true) :
    ∃ st outs, d.run createOk sched fuel = some (Except.ok st, outs) ∧
      outs.length = d.output.length ∧ ∀ o ∈ outs, o = d.input := by
  obtain ⟨blocks, heq, hflat, _⟩ :=
    fullLoop_spec d.block_size d.input hB fuel 0 0 (by omega)
  simp only [Nat.sub_zero, Nat.zero_add, List.drop_zero] at heq hflat
  have hreader : readerRun d.block_count d.block_size d.input sched fuel =
      some (blocks, d.input.length) := by
    rw [hmode]
    exact heq
  obtain ⟨hfst, hsnd⟩ := writers_pipeline_ok blocks d.output createOk hcreate
  simp only [Diode.run, hreader, hfst, hsnd]
  have hok : ∀ w ∈ List.replicate d.output.length (Except.ok 0 : Except Error Nat),
      ∃ m, w = Except.ok m := by
    intro w hw
    exact ⟨0, List.eq_of_mem_replicate hw⟩
  simp only [joinAll, joinWriters_all_ok _ _ hok]
  refine ⟨_, _, rfl, ?_, ?_⟩
  · simp
  · intro o ho
    rw [List.eq_of_mem_replicate ho, hflat]

/-- C1 (counterexample): a successful bounded-mode run whose single output
file (`[1, 0]`, the input byte zero-padded to the block size) differs from
the input (`[1]`) — fidelity does not hold for every configuration. -/
theorem fidelity_counterexample :
    Diode.run ⟨[1], ["out"], 2, 20, some 1⟩ (fun _ => true) (fun _ => 2) 1 =
      some (Except.ok ⟨1, 1⟩, [[1, 0]]) ∧
    ([1, 0] : List Nat) ≠ [1] :=
  ⟨rfl, by decide⟩

/-- C6: when some writer's target cannot be created, that writer aborts with
`UnableToCreateFile` before consuming any block, and even though the reader
and the writers registered before it succeed, `Diode::run` returns that
error rather than `Ok(Status)`. -/
theorem writer_create_failure_reported (d : Diode) (createOk : String → Bool)
    (sched : Nat → Nat) (fuel : Nat) (pre post : List String) (p : String)
    (blocks : List (List Nat)) (total : Nat)
    (hreader : readerRun d.block_count d.block_size d.input sched fuel =
      some (blocks, total))
    (hout : d.output = pre ++ p :: post)
    (hpre : ∀ q ∈ pre, createOk q = true)
    (hp : createOk p = false) :
    ∃ outs, d.run createOk sched fuel =
      some (Except.error (Error.UnableToCreateFile p), outs) := by
  simp only [Diode.run, hreader, hout]
  have hj : joinAll (Except.ok total)
      (((pre ++ p :: post).map (fun q => writerThread (createOk q) q blocks)).map
        (fun w => w.1)) = Except.error (Error.UnableToCreateFile p) := by
    rw [List.map_append, List.map_cons, List.map_append, List.map_cons]
    have hpth : (writerThread (createOk p) p blocks).1 =
        Except.error (Error.UnableToCreateFile p) := by
      simp [writerThread, hp]
    rw [hpth]
    simp only [joinAll]
    apply joinWriters_first_error_at
    intro w hw
    simp only [List.map_map, List.mem_map] at hw
    obtain ⟨q, hq, hww⟩ := hw
    refine ⟨0, ?_⟩
    rw [← hww]
    simp [writerThread, hpre q hq]
  rw [hj]
  exact ⟨_, rfl⟩

/-- C7 (amended): the instrumented join sequence computes the same result
as `Diode::run`'s join sequence, and whenever `Ok(Status)` is returned,
every task — the reader and every writer, in registration order — has been
joined first.  (On error paths the remaining handles are dropped without
being joined: see the counterexample.) -/
theorem join_all_tasks_amended :
    (∀ r ws, (joinAllTrace r ws).1 = joinAll r ws) ∧
    (∀ r ws st, (joinAllTrace r ws).1 = Except.ok st →
      (joinAllTrace r ws).2 =
        TaskId.reader :: (List.range ws.length).map TaskId.writer) := by
  constructor
  · intro r ws
    cases r with
    | error e => rfl
    | ok n => exact joinWritersTrace_fst ws 0 _
  · intro r ws st h
    cases r with
    | error e => simp [joinAllTrace] at h
    | ok n =>
      simp only [joinAllTrace] at h ⊢
      rw [List.range_eq_range']
      exact congrArg _ (joinWritersTrace_ok_trace ws 0 _ st h)

/-- C7 (counterexample): when the reader fails, `Diode::run` returns the
error after joining only the reader — the writer thread is never joined,
so the claim that every task is joined on error paths is false. -/
theorem join_all_tasks_counterexample :
    (joinAllTrace (Except.error (Error.UnableToOpenFile "input")) [Except.ok 0]).1 =
      Except.error (Error.UnableToOpenFile "input") ∧
    TaskId.writer 0 ∉
      (joinAllTrace (Except.error (Error.UnableToOpenFile "input")) [Except.ok 0]).2 := by
  refine ⟨rfl, ?_⟩
  decide

/-- Witness for C1 (amended): a concrete full-stream run with two targets,
both ending up identical to the input. -/
theorem fidelity_full_stream_witness :
    ∃ st outs,
      Diode.run ⟨[1, 2, 3], ["a", "b"], 2, 20, none⟩ (fun _ => true)
          (fun _ => 0) 4 = some (Except.ok st, outs) ∧
      outs.length = 2 ∧ ∀ o ∈ outs, o = [1, 2, 3] :=
  fidelity_full_stream ⟨[1, 2, 3], ["a", "b"], 2, 20, none⟩ (fun _ => true)
    (fun _ => 0) 4 rfl (by decide) (by decide) (fun p _ => rfl)

/-- Witness for C2: 3 bytes with block size 2 produce blocks of lengths
`[2, 1]` — exactly one block of length `3 mod 2 = 1`, and it is last. -/
theorem final_block_sizing_witness :
    ∃ blocks total,
      readerRun none 2 [1, 2, 3] (fun _ => 0) 4 = some (blocks, total) ∧
      (blocks.map List.length).count 1 = 1 ∧
      (blocks.map List.length).getLast? = some 1 ∧
      blocks.flatten = [1, 2, 3] :=
  final_block_sizing 2 4 [1, 2, 3] (fun _ => 0) (by decide) (by decide) (by decide)

/-- Witness for C3: the three accounting statements at concrete inputs. -/
theorem count_accuracy_witness :
    ((Except.ok 5 : Except Error Nat) = Except.ok (Status.mk 5 0).bytes_copied) ∧
    ((3 : Nat) = ([1, 2, 3] : List Nat).length) ∧
    ((1 : Nat) = min (2 * 2) ([9] : List Nat).length) :=
  ⟨count_accuracy.1 (Except.ok 5) [] ⟨5, 0⟩ rfl,
   count_accuracy.2.1 2 [1, 2, 3] (fun _ => 0) 4 [[1, 2], [3]] 3 (by decide)
     (by decide) rfl,
   count_accuracy.2.2 2 2 0 [9] [[9, 0], [0, 0]] 1 rfl⟩

/-- Witness for C6: the middle of three targets fails to create; the run
reports `UnableToCreateFile "bad"` although reader and the other writers
succeed. -/
theorem writer_create_failure_reported_witness :
    ∃ outs,
      Diode.run ⟨[5], ["a", "bad", "b"], 1, 20, some 1⟩ (fun q => q != "bad")
        (fun _ => 1) 0 =
        some (Except.error (Error.UnableToCreateFile "bad"), outs) :=
  writer_create_failure_reported ⟨[5], ["a", "bad", "b"], 1, 20, some 1⟩
    (fun q => q != "bad") (fun _ => 1) 0 ["a"] ["b"] "bad" [[5]] 1 rfl rfl
    (by decide) (by decide)

/-- Witness for C7 (amended): a successful join of a reader and two writers
joins all three tasks in order. -/
theorem join_all_tasks_amended_witness :
    (joinAllTrace (Except.ok 3) [Except.ok 0, Except.ok 0]).2 =
      TaskId.reader :: (List.range 2).map TaskId.writer :=
  join_all_tasks_amended.2 (Except.ok 3) [Except.ok 0, Except.ok 0] ⟨3, 2⟩ rfl

/-- Witness for C9: after one broadcast with capacity 1 and one receiver,
the reader is exactly one block ahead, within the bound. -/
theorem backpressure_bound_witness :
    BusReachable 1 1 ⟨1, [0]⟩ ∧ (1 : Nat) - 0 ≤ 1 := by
  have hr : BusReachable 1 1 ⟨1, [0]⟩ :=
    Relation.ReflTransGen.single (BusStep.broadcast (busInit 1) (by decide))
  exact ⟨hr, backpressure_bound 1 1 ⟨1, [0]⟩ hr 0 (by decide)⟩

/-- Witness for C10: the zero-padded block `[7, 8, 0, 0]` produced by a
short read of 2 bytes with block size 4 has length exactly 4 and ends in
zeroes. -/
theorem bounded_mode_zero_padding_witness :
    ([7, 8, 0, 0] : List Nat).length = 4 ∧
    ∃ p m, m ≤ min 4 (([7, 8, 9, 10] : List Nat).length - p) ∧
      [7, 8, 0, 0] = (([7, 8, 9, 10] : List Nat).drop p).take m ++
        List.replicate (4 - m) 0 :=
  bounded_mode_zero_padding.1 1 4 0 [7, 8, 9, 10] (fun _ => 2) [[7, 8, 0, 0]] 2
    rfl [7, 8, 0, 0] (by decide)
